import Mathlib

/-!
Verification development for the kv-sqlite library (src/index.ts).

The store is one SQLite table `kv` with columns
  key TEXT PRIMARY KEY, json_data TEXT, counter INTEGER NOT NULL DEFAULT 0,
  expires_at INTEGER, created_at INTEGER DEFAULT (unixepoch()),
  updated_at INTEGER DEFAULT (unixepoch())
and three triggers:
  update_updated_at_on_update : AFTER UPDATE, sets updated_at = unixepoch()
    for the updated key;
  cleanup_expired_on_insert : BEFORE INSERT, deletes every row with
    expires_at IS NOT NULL AND expires_at <= unixepoch();
  cleanup_expired_on_delete : BEFORE DELETE, same cleanup.

The table is embedded as an association list of (key, Row).  The clock
`unixepoch()` (and the JS `Date.now()` read inside `set`, floored to
seconds) is a single explicit parameter `now : Int` to every operation.
SQLite semantics used by the embedding:
  - BEFORE INSERT triggers run before the primary-key constraint check,
    so the cleanup removes an expired row for the same key before the
    conflict is decided;
  - a primary-key conflict under the default ABORT resolution backs out
    every change the statement made, including the cleanup performed by
    the trigger, so a failed insert leaves the table unchanged;
  - BEFORE DELETE triggers fire only when the DELETE statement matches
    at least one row;
  - recursive triggers are off (SQLite default), so trigger bodies do
    not re-fire triggers, and the row deletions performed by REPLACE
    conflict resolution do not fire delete triggers;
  - a RETURNING clause reports row values as produced by the statement
    itself, before AFTER triggers run, so addToCounter returns the row
    with the new counter but the old updated_at, while the stored row
    gets updated_at = now from the AFTER UPDATE trigger.
-/

namespace KVSqlite

/-- A physical row of the `kv` table.  Timestamps are unixepoch seconds. -/
structure Row where
  json_data : Option String
  counter : Int
  expires_at : Option Int
  created_at : Int
  updated_at : Int
deriving Repr, DecidableEq

/-- The table: an association list from key to row (primary-key
uniqueness is the `WF` predicate below). -/
abbrev Store := List (String × Row)

/-- First-match association-list lookup, the embedding of
`... FROM kv WHERE key = ?` under primary-key uniqueness. -/
def lookup : Store → String → Option Row
  | [], _ => none
  | (k', r) :: t, k => if k' = k then some r else lookup t k

/-- The keys physically present in the table. -/
def keys (s : Store) : List String := s.map Prod.fst

/-- Well-formedness: the primary-key constraint, no duplicate keys. -/
def WF (s : Store) : Prop := (keys s).Nodup

/-- The SQL liveness predicate `expires_at IS NULL OR expires_at > unixepoch()`
used by select, deleteSelect and addToCounter. -/
def isLive (now : Int) (r : Row) : Bool :=
  match r.expires_at with
  | none => true
  | some e => now < e

/-- The cleanup-trigger predicate `expires_at IS NOT NULL AND expires_at <= unixepoch()`. -/
def isExpired (now : Int) (r : Row) : Bool :=
  match r.expires_at with
  | none => false
  | some e => e ≤ now

/-- Body of the cleanup_expired_on_insert / cleanup_expired_on_delete
triggers: delete every expired row. -/
def cleanup (now : Int) (s : Store) : Store :=
  s.filter (fun p => isLive now p.2)

/-- Remove every row with the given key. -/
def eraseKey (s : Store) (k : String) : Store :=
  s.filter (fun p => decide (p.1 ≠ k))

/-- Overwrite the row stored under `k` (used for the UPDATE statement and
the AFTER UPDATE trigger, which both target `WHERE key = ...`). -/
def replaceRow (s : Store) (k : String) (r' : Row) : Store :=
  s.map (fun p => if p.1 = k then (k, r') else p)

/-- The `select` prepared statement:
`SELECT ... FROM kv WHERE key = ? AND (expires_at IS NULL OR expires_at > unixepoch()) LIMIT 1`.
A pure read: fires no trigger. -/
def select (now : Int) (k : String) (s : Store) : Option Row :=
  match lookup s k with
  | none => none
  | some r => if isLive now r then some r else none

/-- A thrown JS error as observed by the `catch` block in `KV.set`:
either a bun:sqlite `SQLiteError` carrying its `code`, or anything else. -/
inductive JsError where
  | sqliteError (code : String)
  | otherError (name : String)
deriving Repr, DecidableEq

/-- The `e.code` value the `catch` in `KV.set` treats as a conflict. -/
def pkConflictCode : String := "SQLITE_CONSTRAINT_PRIMARYKEY"

/-- The `insertIgnore` prepared statement:
`INSERT INTO kv (key, json_data, expires_at) VALUES (...)`.
The BEFORE INSERT trigger first deletes all expired rows (this runs before
the primary-key check, so an expired row under the same key is no conflict).
If a row for the key survives the cleanup, the primary-key constraint
aborts the statement: ABORT backs out the trigger's deletions too, so the
caller observes the original table and a thrown SQLiteError. -/
def insertIgnore (now : Int) (k : String) (jd : Option String) (ea : Option Int)
    (s : Store) : Except JsError Store :=
  let s' := cleanup now s
  if (lookup s' k).isSome then
    Except.error (JsError.sqliteError pkConflictCode)
  else
    Except.ok (s' ++ [(k, ⟨jd, 0, ea, now, now⟩)])

/-- The `insertReplace` prepared statement:
`REPLACE INTO kv (key, json_data, expires_at) VALUES (...)`.
The BEFORE INSERT cleanup trigger fires, then REPLACE deletes any row
under the key and inserts a fresh one; counter, created_at and updated_at
take their column defaults (0, now, now). -/
def insertReplace (now : Int) (k : String) (jd : Option String) (ea : Option Int)
    (s : Store) : Store :=
  eraseKey (cleanup now s) k ++ [(k, ⟨jd, 0, ea, now, now⟩)]

/-- The `deleteSelect` prepared statement:
`DELETE FROM kv WHERE key = ? AND (live) RETURNING ...`.
When the row exists and is live the BEFORE DELETE trigger cleans up all
expired rows and the target row is removed; RETURNING reports its
pre-delete state.  When no row matches, no trigger fires and the table
is unchanged. -/
def deleteSelect (now : Int) (k : String) (s : Store) : Option Row × Store :=
  match select now k s with
  | some r => (some r, eraseKey (cleanup now s) k)
  | none => (none, s)

/-- The `deleteSingle` prepared statement: `DELETE FROM kv WHERE key = ?`.
The BEFORE DELETE cleanup fires exactly when a row with the key exists. -/
def deleteSingle (now : Int) (k : String) (s : Store) : Store :=
  if (lookup s k).isSome then eraseKey (cleanup now s) k else s

/-- The batched delete `DELETE FROM kv WHERE key IN (?,...,?)` built in
`KV.del`.  The BEFORE DELETE cleanup fires exactly when some row matches. -/
def deleteMany (now : Int) (ks : List String) (s : Store) : Store :=
  if s.any (fun p => decide (p.1 ∈ ks)) then
    (cleanup now s).filter (fun p => decide (p.1 ∉ ks))
  else s

/-- The `addToCounter` prepared statement:
`UPDATE kv SET counter = COALESCE(counter, 0) + $delta WHERE key = $key AND (live) RETURNING ...`.
On a live row, the statement adds delta to counter; the AFTER UPDATE
trigger then stamps updated_at = now on the stored row.  RETURNING
reports the statement's own output, i.e. the new counter but the
pre-trigger updated_at.  On a missing or expired row nothing matches:
no trigger fires and the table is unchanged. -/
def addToCounter (now : Int) (k : String) (delta : Int) (s : Store) :
    Option Row × Store :=
  match lookup s k with
  | some r =>
    if isLive now r then
      (some { r with counter := r.counter + delta },
       replaceRow s k { r with counter := r.counter + delta, updated_at := now })
    else (none, s)
  | none => (none, s)

/-- The result shape produced by `format`: data is the deserialized
payload (modelled at the serialized level, since JSON.parse inverts
JSON.stringify for the values the store writes), the three Date fields
are epoch milliseconds (`new Date(x * 1000)`). -/
structure Entry where
  data : Option String
  counter : Int
  expiresAt : Option Int
  createdAt : Int
  updatedAt : Int
deriving Repr, DecidableEq

/-- `format` on a present row.  Note the JS truthiness test
`result.expires_at ? new Date(...) : null`: an expires_at of 0 maps to
null. -/
def formatRow (r : Row) : Entry :=
  { data := r.json_data
    counter := r.counter
    expiresAt :=
      match r.expires_at with
      | none => none
      | some e => if e = 0 then none else some (e * 1000)
    createdAt := r.created_at * 1000
    updatedAt := r.updated_at * 1000 }

/-- The `format` helper: null row maps to null. -/
def format : Option Row → Option Entry
  | none => none
  | some r => some (formatRow r)

/-- The options object of `KV.set` as it exists at runtime: `replace`,
and the two expiration inputs, either of which may be absent
(`undefined`).  `expiresAtMs` is the `Date` option, represented by its
`getTime()` value in milliseconds. -/
structure SetOpts where
  replace : Bool := false
  ttl : Option Int := none
  expiresAtMs : Option Int := none
deriving Repr, DecidableEq

/-- The expiration computation at the top of `KV.set`: a defined `ttl`
wins and yields `Math.floor(Date.now() / 1000) + ttl`; otherwise a
defined `expiresAt` Date yields `Math.floor(getTime() / 1000)`
(floor division, truncation to whole epoch seconds); otherwise null. -/
def computeExpiresAt (now : Int) (opts : SetOpts) : Option Int :=
  match opts.ttl with
  | some t => some (now + t)
  | none =>
    match opts.expiresAtMs with
    | some ms => some (Int.fdiv ms 1000)
    | none => none

namespace KV

/-- `KV.get`: `format(select.get(key))`.  A pure read. -/
def get (now : Int) (k : String) (s : Store) : Option Entry :=
  format (select now k s)

/-- `KV.getDel`: `format(deleteSelect.get(key))`, returning the formatted
row and the table after the delete. -/
def getDel (now : Int) (k : String) (s : Store) : Option Entry × Store :=
  (format (deleteSelect now k s).1, (deleteSelect now k s).2)

/-- The `catch` block of `KV.set`: a SQLiteError whose code is
SQLITE_CONSTRAINT_PRIMARYKEY becomes the boolean return false with the
table unchanged; every other error is rethrown. -/
def setCatch (s : Store) (r : Except JsError Store) : Except JsError (Bool × Store) :=
  match r with
  | Except.ok s' => Except.ok (true, s')
  | Except.error (JsError.sqliteError code) =>
    if code = pkConflictCode then Except.ok (false, s)
    else Except.error (JsError.sqliteError code)
  | Except.error e => Except.error e

/-- `KV.set`: computes the expiration, serializes the data (the
`jsonData` argument is already the serialized payload, `none` for a JS
null), then either runs insertReplace (always returning true) or runs
insertIgnore under the conflict-catching handler. -/
def set (now : Int) (k : String) (jsonData : Option String) (opts : SetOpts)
    (s : Store) : Except JsError (Bool × Store) :=
  let ea := computeExpiresAt now opts
  if opts.replace then
    Except.ok (true, insertReplace now k jsonData ea s)
  else
    setCatch s (insertIgnore now k jsonData ea s)

/-- `KV.del`: zero keys is a no-op, one key uses deleteSingle, several
keys use the batched IN-list delete. -/
def del (now : Int) (ks : List String) (s : Store) : Store :=
  match ks with
  | [] => s
  | [k] => deleteSingle now k s
  | _ => deleteMany now ks s

/-- `KV.increment`: addToCounter with delta 1, formatted. -/
def increment (now : Int) (k : String) (s : Store) : Option Entry × Store :=
  (format (addToCounter now k 1 s).1, (addToCounter now k 1 s).2)

/-- `KV.decrement`: addToCounter with delta -1, formatted. -/
def decrement (now : Int) (k : String) (s : Store) : Option Entry × Store :=
  (format (addToCounter now k (-1) s).1, (addToCounter now k (-1) s).2)

end KV

/-- One public operation of the facade, for stating invariants over
arbitrary operations. -/
inductive Op where
  | getOp (k : String)
  | getDelOp (k : String)
  | setOp (k : String) (jd : Option String) (opts : SetOpts)
  | delOp (ks : List String)
  | incOp (k : String)
  | decOp (k : String)

/-- The table after running one facade operation at time `now` (a
conflicting set returns false with the table unchanged, which is the
only error the embedding produces). -/
def applyOp (now : Int) (op : Op) (s : Store) : Store :=
  match op with
  | Op.getOp _ => s
  | Op.getDelOp k => (KV.getDel now k s).2
  | Op.setOp k jd opts =>
    match KV.set now k jd opts s with
    | Except.ok (_, s') => s'
    | Except.error _ => s
  | Op.delOp ks => KV.del now ks s
  | Op.incOp k => (KV.increment now k s).2
  | Op.decOp k => (KV.decrement now k s).2

/-- Timestamp sanity of a table relative to the clock: every row has
created_at ≤ updated_at ≤ now. -/
def TimeInv (t : Int) (s : Store) : Prop :=
  ∀ p ∈ s, p.2.created_at ≤ p.2.updated_at ∧ p.2.updated_at ≤ t

/-- Iterated addToCounter on one key: a list of (time, delta) steps. -/
def iterCounter (k : String) (l : List (Int × Int)) (s : Store) : Store :=
  l.foldl (fun st p => (addToCounter p.1 k p.2 st).2) s

theorem lookup_cons (a : String) (b : Row) (t : Store) (k : String) :
    lookup ((a, b) :: t) k = if a = k then some b else lookup t k := rfl

theorem lookup_eq_none_of_not_mem {s : Store} {k : String} (h : k ∉ keys s) :
    lookup s k = none := by
  induction s with
  | nil => rfl
  | cons p t ih =>
    cases p with
    | mk a b =>
      simp only [keys, List.map_cons, List.mem_cons, not_or] at h
      rw [lookup_cons, if_neg (fun hc => h.1 hc.symm)]
      exact ih (by simpa [keys] using h.2)

theorem lookup_mem {s : Store} {k : String} {r : Row} (h : lookup s k = some r) :
    (k, r) ∈ s := by
  induction s with
  | nil => simp [lookup] at h
  | cons p t ih =>
    cases p with
    | mk k' r' =>
      simp only [lookup] at h
      by_cases hk : k' = k
      · rw [if_pos hk] at h
        subst hk
        injection h with h
        subst h
        exact List.mem_cons_self _ _
      · rw [if_neg hk] at h
        exact List.mem_cons_of_mem _ (ih h)

theorem lookup_isSome_of_mem {s : Store} {k : String} {r : Row} (h : (k, r) ∈ s) :
    (lookup s k).isSome = true := by
  induction s with
  | nil => simp at h
  | cons p t ih =>
    rcases List.mem_cons.mp h with h1 | h2
    · cases p with
      | mk k' r' =>
        injection h1.symm with e1 e2
        simp [lookup, e1]
    · cases p with
      | mk k' r' =>
        simp only [lookup]
        by_cases hk : k' = k
        · simp [hk]
        · rw [if_neg hk]
          exact ih h2

theorem lookup_filter_eq_none {s : Store} {k : String} (p : String × Row → Bool)
    (h : k ∉ keys s) : lookup (s.filter p) k = none := by
  apply lookup_eq_none_of_not_mem
  intro hmem
  apply h
  simp only [keys, List.mem_map] at hmem ⊢
  obtain ⟨q, hq, hqk⟩ := hmem
  exact ⟨q, (List.mem_filter.mp hq).1, hqk⟩

theorem lookup_cleanup {now : Int} {s : Store} {k : String} (hWF : WF s) :
    lookup (cleanup now s) k =
      (lookup s k).bind (fun r => if isLive now r then some r else none) := by
  induction s with
  | nil => rfl
  | cons p t ih =>
    cases p with
    | mk k' r' =>
      have hnd := hWF
      simp only [WF, keys, List.map_cons, List.nodup_cons] at hnd
      simp only [cleanup, List.filter_cons]
      by_cases hk : k' = k
      · subst hk
        by_cases hl : isLive now r' = true
        · simp only [hl, if_true, lookup, if_pos rfl]
          simp [hl]
        · simp only [Bool.not_eq_true] at hl
          simp only [hl, Bool.false_eq_true, if_false]
          have : lookup (List.filter (fun p => isLive now p.2) t) k' = none :=
            lookup_filter_eq_none _ (by simpa [keys] using hnd.1)
          simp only [cleanup] at this
          rw [this]
          simp [lookup, hl]
      · by_cases hl : isLive now r' = true
        · simp only [hl, if_true, lookup, if_neg hk]
          exact ih hnd.2
        · simp only [Bool.not_eq_true] at hl
          simp only [hl, Bool.false_eq_true, if_false, lookup, if_neg hk]
          exact ih hnd.2

theorem lookup_eraseKey_self (s : Store) (k : String) :
    lookup (eraseKey s k) k = none := by
  induction s with
  | nil => rfl
  | cons p t ih =>
    cases p with
    | mk a b =>
      show lookup (List.filter (fun p => decide (p.1 ≠ k)) ((a, b) :: t)) k = none
      rw [List.filter_cons]
      by_cases ha : a = k
      · rw [if_neg (by simp [ha])]
        exact ih
      · rw [if_pos (by simp [ha]), lookup_cons, if_neg ha]
        exact ih

theorem lookup_eraseKey_ne {s : Store} {k k' : String} (h : k' ≠ k) :
    lookup (eraseKey s k) k' = lookup s k' := by
  induction s with
  | nil => rfl
  | cons p t ih =>
    cases p with
    | mk a b =>
      show lookup (List.filter (fun p => decide (p.1 ≠ k)) ((a, b) :: t)) k' =
        lookup ((a, b) :: t) k'
      rw [List.filter_cons]
      by_cases ha : a = k
      · rw [if_neg (by simp [ha]), lookup_cons,
          if_neg (fun hc => h (hc.symm.trans ha))]
        exact ih
      · rw [if_pos (by simp [ha]), lookup_cons, lookup_cons]
        by_cases hak : a = k'
        · rw [if_pos hak, if_pos hak]
        · rw [if_neg hak, if_neg hak]
          exact ih

theorem lookup_append_of_eq_none {s : Store} {k : String} (t : Store)
    (h : lookup s k = none) : lookup (s ++ t) k = lookup t k := by
  induction s with
  | nil => rfl
  | cons p u ih =>
    cases p with
    | mk a b =>
      simp only [lookup] at h
      by_cases ha : a = k
      · rw [if_pos ha] at h
        exact absurd h (by simp)
      · rw [if_neg ha] at h
        simp only [List.cons_append, lookup, if_neg ha]
        exact ih h

theorem lookup_singleton_self (k : String) (r : Row) :
    lookup [(k, r)] k = some r := by
  simp [lookup]

theorem replaceRow_cons (a : String) (b : Row) (t : Store) (k : String) (r' : Row) :
    replaceRow ((a, b) :: t) k r' =
      (if a = k then (k, r') else (a, b)) :: replaceRow t k r' := rfl

theorem lookup_replaceRow_some {s : Store} {k : String} {r r' : Row}
    (h : lookup s k = some r) : lookup (replaceRow s k r') k = some r' := by
  induction s with
  | nil => simp [lookup] at h
  | cons p t ih =>
    cases p with
    | mk a b =>
      rw [replaceRow_cons]
      by_cases ha : a = k
      · rw [if_pos ha, lookup_cons, if_pos rfl]
      · rw [if_neg ha, lookup_cons, if_neg ha]
        rw [lookup_cons, if_neg ha] at h
        exact ih h

theorem lookup_replaceRow_ne {s : Store} {k k' : String} {r' : Row} (h : k' ≠ k) :
    lookup (replaceRow s k r') k' = lookup s k' := by
  induction s with
  | nil => rfl
  | cons p t ih =>
    cases p with
    | mk a b =>
      rw [replaceRow_cons, lookup_cons]
      by_cases ha : a = k
      · rw [if_pos ha, lookup_cons, if_neg (fun hc : k = k' => h hc.symm),
          if_neg (fun hc : a = k' => h (hc.symm.trans ha))]
        exact ih
      · rw [if_neg ha, lookup_cons]
        by_cases hak : a = k'
        · rw [if_pos hak, if_pos hak]
        · rw [if_neg hak, if_neg hak]
          exact ih

theorem lookup_replaceRow_eq_none {s : Store} {k : String} {r' : Row}
    (h : lookup s k = none) : lookup (replaceRow s k r') k = none := by
  induction s with
  | nil => rfl
  | cons p t ih =>
    cases p with
    | mk a b =>
      rw [lookup_cons] at h
      by_cases ha : a = k
      · rw [if_pos ha] at h
        exact absurd h (by simp)
      · rw [if_neg ha] at h
        rw [replaceRow_cons, if_neg ha, lookup_cons, if_neg ha]
        exact ih h

theorem isExpired_eq_not_isLive (now : Int) (r : Row) :
    isExpired now r = !isLive now r := by
  unfold isExpired isLive
  rcases r.expires_at with _ | e
  · rfl
  · show decide (e ≤ now) = !decide (now < e)
    by_cases h : e ≤ now
    · rw [decide_eq_true h, decide_eq_false (by omega : ¬now < e), Bool.not_false]
    · rw [decide_eq_false h, decide_eq_true (by omega : now < e), Bool.not_true]

theorem set_ok_lookup {now : Int} {k : String} {jd : Option String} {opts : SetOpts}
    {s s' : Store} (h : KV.set now k jd opts s = Except.ok (true, s')) :
    lookup s' k = some ⟨jd, 0, computeExpiresAt now opts, now, now⟩ := by
  by_cases hrep : opts.replace = true
  · simp only [KV.set, hrep, if_true] at h
    simp only [Except.ok.injEq, Prod.mk.injEq, true_and] at h
    subst h
    unfold insertReplace
    rw [lookup_append_of_eq_none _ (lookup_eraseKey_self _ _), lookup_singleton_self]
  · simp only [KV.set, hrep] at h
    rw [if_neg (by simp [hrep])] at h
    unfold insertIgnore at h
    by_cases hc : (lookup (cleanup now s) k).isSome = true
    · simp only [hc, if_true] at h
      simp [KV.setCatch, pkConflictCode] at h
    · simp only [hc] at h
      rw [if_neg (by simp [hc])] at h
      simp only [KV.setCatch, Except.ok.injEq, Prod.mk.injEq, true_and] at h
      subst h
      have hnone : lookup (cleanup now s) k = none :=
        Option.not_isSome_iff_eq_none.mp (by simpa using hc)
      rw [lookup_append_of_eq_none _ hnone, lookup_singleton_self]

/-- C1: `get(k)` returns the stored entry iff a row for `k` exists and its
expires_at is null or strictly greater than the current time; otherwise it
returns null.  In particular a physically present row whose expires_at is
at or before the current time is never returned, with no cleanup needed. -/
theorem C1_get_returns_iff_live (now : Int) (k : String) (s : Store) :
    (∀ r : Row, lookup s k = some r →
      (isLive now r = true → KV.get now k s = some (formatRow r)) ∧
      (isLive now r = false → KV.get now k s = none)) ∧
    (lookup s k = none → KV.get now k s = none) ∧
    (∀ (r : Row) (e : Int), lookup s k = some r → r.expires_at = some e →
      e ≤ now → KV.get now k s = none) := by
  refine ⟨fun r hr => ⟨fun hl => ?_, fun hl => ?_⟩, fun h => ?_, fun r e hr he hle => ?_⟩
  · simp [KV.get, select, hr, hl, format]
  · simp [KV.get, select, hr, hl, format]
  · simp [KV.get, select, h, format]
  · have hl : isLive now r = false := by
      unfold isLive
      rw [he]
      exact decide_eq_false (by omega)
    simp [KV.get, select, hr, hl, format]

/-- Witness for C1 at concrete inputs: a live row is returned, a missing
key gives null, and an expired-but-present row gives null. -/
theorem C1_witness :
    KV.get 10 "k" [("k", ⟨some "v", 0, none, 1, 1⟩)] =
      some (formatRow ⟨some "v", 0, none, 1, 1⟩) ∧
    KV.get 10 "x" [("k", ⟨some "v", 0, none, 1, 1⟩)] = none ∧
    KV.get 10 "d" [("d", ⟨none, 0, some 5, 1, 1⟩)] = none :=
  ⟨((C1_get_returns_iff_live 10 "k" [("k", ⟨some "v", 0, none, 1, 1⟩)]).1
      ⟨some "v", 0, none, 1, 1⟩ (by decide)).1 (by decide),
   (C1_get_returns_iff_live 10 "x" [("k", ⟨some "v", 0, none, 1, 1⟩)]).2.1 (by decide),
   (C1_get_returns_iff_live 10 "d" [("d", ⟨none, 0, some 5, 1, 1⟩)]).2.2
      ⟨none, 0, some 5, 1, 1⟩ 5 (by decide) rfl (by decide)⟩

/-- C5: `set(k, v, ⦃replace: true⦄)` always returns true, and overwrites the
row for `k` with payload v, counter 0, no expiration, fresh timestamps, so a
subsequent `get(k)` yields v with counter 0, whatever was stored before. -/
theorem C5_set_replace_overwrites (now now' : Int) (k : String) (jd : Option String)
    (s : Store) :
    KV.set now k jd ⟨true, none, none⟩ s =
      Except.ok (true, insertReplace now k jd none s) ∧
    lookup (insertReplace now k jd none s) k = some ⟨jd, 0, none, now, now⟩ ∧
    KV.get now' k (insertReplace now k jd none s) =
      some ⟨jd, 0, none, now * 1000, now * 1000⟩ := by
  have h2 : lookup (insertReplace now k jd none s) k = some ⟨jd, 0, none, now, now⟩ := by
    unfold insertReplace
    rw [lookup_append_of_eq_none _ (lookup_eraseKey_self _ _), lookup_singleton_self]
  refine ⟨rfl, h2, ?_⟩
  simp [KV.get, select, h2, isLive, format, formatRow]

/-- C10: in `set`, a defined ttl takes precedence and stores now + ttl even
when expiresAt is also defined; a defined expiresAt alone stores its Date
truncated (floored) to whole epoch seconds; with neither, the row has no
expiration.  The computed value is exactly what a successful set stores. -/
theorem C10_option_precedence (now : Int) (k : String) (jd : Option String)
    (opts : SetOpts) (s s' : Store) (rep : Bool) (t ms : Int) :
    computeExpiresAt now ⟨rep, some t, some ms⟩ = some (now + t) ∧
    computeExpiresAt now ⟨rep, some t, none⟩ = some (now + t) ∧
    computeExpiresAt now ⟨rep, none, some ms⟩ = some (Int.fdiv ms 1000) ∧
    computeExpiresAt now ⟨rep, none, none⟩ = none ∧
    (KV.set now k jd opts s = Except.ok (true, s') →
      ∃ r : Row, lookup s' k = some r ∧ r.expires_at = computeExpiresAt now opts) := by
  refine ⟨rfl, rfl, rfl, rfl, fun h => ?_⟩
  exact ⟨⟨jd, 0, computeExpiresAt now opts, now, now⟩, set_ok_lookup h, rfl⟩

/-- Witness for C10: with both ttl 7 and an expiresAt Date defined, a
successful set stores expires_at = now + 7, ignoring the Date. -/
theorem C10_witness :
    KV.set 100 "k" (some "v") ⟨false, some 7, some 99999⟩ [] =
      Except.ok (true, [("k", ⟨some "v", 0, some 107, 100, 100⟩)]) ∧
    ∃ r : Row, lookup [("k", ⟨some "v", 0, some 107, 100, 100⟩)] "k" = some r ∧
      r.expires_at = computeExpiresAt 100 ⟨false, some 7, some 99999⟩ :=
  ⟨by rfl,
   (C10_option_precedence 100 "k" (some "v") ⟨false, some 7, some 99999⟩ []
      [("k", ⟨some "v", 0, some 107, 100, 100⟩)] false 7 99999).2.2.2.2 (by rfl)⟩

/-- C2: without replace, `set(k, v)` returns the boolean false (not a
thrown error) iff a live entry for `k` exists, and then the table is
unchanged; if every row stored under `k` is expired the call succeeds with
true; and the catch block rethrows any error that is not a SQLiteError
with the primary-key-conflict code. -/
theorem C2_set_conflict (now : Int) (k : String) (jd : Option String)
    (opts : SetOpts) (s : Store) (hWF : WF s) (hrep : opts.replace = false) :
    (KV.set now k jd opts s = Except.ok (false, s) ↔
      ∃ r : Row, lookup s k = some r ∧ isLive now r = true) ∧
    (∀ res : Bool × Store, KV.set now k jd opts s = Except.ok res →
      res.1 = false → res.2 = s) ∧
    ((∀ r : Row, lookup s k = some r → isLive now r = false) →
      ∃ s' : Store, KV.set now k jd opts s = Except.ok (true, s')) ∧
    (∀ e : JsError, e ≠ JsError.sqliteError pkConflictCode →
      KV.setCatch s (Except.error e) = Except.error e) := by
  have hprop : ∀ e : JsError, e ≠ JsError.sqliteError pkConflictCode →
      KV.setCatch s (Except.error e) = Except.error e := by
    intro e he
    cases e with
    | sqliteError code =>
      show (if code = pkConflictCode then Except.ok (false, s)
        else Except.error (JsError.sqliteError code)) = Except.error (JsError.sqliteError code)
      rw [if_neg (fun hc => he (by rw [hc]))]
    | otherError n => rfl
  have hset : KV.set now k jd opts s =
      KV.setCatch s (insertIgnore now k jd (computeExpiresAt now opts) s) := by
    unfold KV.set
    rw [if_neg (by simp [hrep])]
  have hcl : lookup (cleanup now s) k =
      (lookup s k).bind (fun r => if isLive now r then some r else none) :=
    lookup_cleanup hWF
  by_cases hlive : ∃ r : Row, lookup s k = some r ∧ isLive now r = true
  · obtain ⟨r, hr, hl⟩ := hlive
    have hL : lookup (cleanup now s) k = some r := by
      rw [hcl, hr]
      simp [hl]
    have hii : insertIgnore now k jd (computeExpiresAt now opts) s =
        Except.error (JsError.sqliteError pkConflictCode) := by
      unfold insertIgnore
      rw [if_pos (by simp [hL])]
    have hfalse : KV.set now k jd opts s = Except.ok (false, s) := by
      rw [hset, hii]
      simp [KV.setCatch]
    refine ⟨⟨fun _ => ⟨r, hr, hl⟩, fun _ => hfalse⟩, ?_, ?_, hprop⟩
    · intro res hres _
      rw [hfalse] at hres
      injection hres with h1
      rw [← h1]
    · intro hdead
      exact absurd (hdead r hr) (by simp [hl])
  · have hL : lookup (cleanup now s) k = none := by
      rw [hcl]
      cases hr : lookup s k with
      | none => rfl
      | some r =>
        have hl : isLive now r = false := by
          by_contra hc
          exact hlive ⟨r, hr, by revert hc; cases isLive now r <;> simp⟩
        simp [hl]
    have hii : insertIgnore now k jd (computeExpiresAt now opts) s =
        Except.ok (cleanup now s ++ [(k, ⟨jd, 0, computeExpiresAt now opts, now, now⟩)]) := by
      unfold insertIgnore
      rw [if_neg (by simp [hL])]
    have htrue : KV.set now k jd opts s =
        Except.ok (true, cleanup now s ++ [(k, ⟨jd, 0, computeExpiresAt now opts, now, now⟩)]) := by
      rw [hset, hii]
      rfl
    refine ⟨⟨fun h => ?_, fun h => absurd h hlive⟩, ?_, fun _ => ⟨_, htrue⟩, hprop⟩
    · rw [htrue] at h
      injection h with h1
      exact absurd (congrArg Prod.fst h1) (by simp)
    · intro res hres hres1
      rw [htrue] at hres
      injection hres with h1
      rw [← h1] at hres1
      simp at hres1

/-- Witness for C2: a live entry yields the boolean false with the table
unchanged; a non-conflict error is rethrown by the catch block. -/
theorem C2_witness :
    KV.set 10 "k" (some "w") ⟨false, none, none⟩ [("k", ⟨some "v", 0, none, 1, 1⟩)] =
      Except.ok (false, [("k", ⟨some "v", 0, none, 1, 1⟩)]) ∧
    KV.setCatch [] (Except.error (JsError.otherError "SomeOther")) =
      Except.error (JsError.otherError "SomeOther") :=
  ⟨((C2_set_conflict 10 "k" (some "w") ⟨false, none, none⟩
      [("k", ⟨some "v", 0, none, 1, 1⟩)] (by unfold WF keys; decide) rfl).1).mpr
      ⟨⟨some "v", 0, none, 1, 1⟩, by decide, by decide⟩,
   (C2_set_conflict 10 "k" (some "w") ⟨false, none, none⟩ [] (by unfold WF keys; decide) rfl).2.2.2
      (JsError.otherError "SomeOther") (by decide)⟩

/-- C3: `getDel(k)` deletes the row for `k` iff it is live and returns its
pre-delete state; afterwards both `get(k)` and a second `getDel(k)` on the
new table return null (and change nothing); when no live entry exists it
returns null and the table is unchanged. -/
theorem C3_getDel_once (now : Int) (k : String) (s : Store) :
    (∀ r : Row, lookup s k = some r → isLive now r = true →
      KV.getDel now k s = (some (formatRow r), eraseKey (cleanup now s) k) ∧
      (∀ now' : Int, KV.get now' k (eraseKey (cleanup now s) k) = none ∧
        KV.getDel now' k (eraseKey (cleanup now s) k) =
          (none, eraseKey (cleanup now s) k))) ∧
    (select now k s = none → KV.getDel now k s = (none, s)) := by
  constructor
  · intro r hr hl
    have hsel : select now k s = some r := by simp [select, hr, hl]
    have hds : deleteSelect now k s = (some r, eraseKey (cleanup now s) k) := by
      simp [deleteSelect, hsel]
    constructor
    · simp [KV.getDel, hds, format]
    · intro now'
      have hnone : lookup (eraseKey (cleanup now s) k) k = none :=
        lookup_eraseKey_self _ _
      have hsel' : select now' k (eraseKey (cleanup now s) k) = none := by
        simp [select, hnone]
      exact ⟨by simp [KV.get, hsel', format],
        by simp [KV.getDel, deleteSelect, hsel', format]⟩
  · intro hsel
    simp [KV.getDel, deleteSelect, hsel, format]

/-- Witness for C3: a live entry is returned exactly once; the immediate
second getDel and get return null; an expired entry is never returned. -/
theorem C3_witness :
    KV.getDel 10 "k" [("k", ⟨some "v", 2, some 20, 1, 1⟩)] =
      (some (formatRow ⟨some "v", 2, some 20, 1, 1⟩),
        eraseKey (cleanup 10 [("k", ⟨some "v", 2, some 20, 1, 1⟩)]) "k") ∧
    KV.get 10 "k" (eraseKey (cleanup 10 [("k", ⟨some "v", 2, some 20, 1, 1⟩)]) "k") = none ∧
    KV.getDel 10 "d" [("d", ⟨some "v", 0, some 5, 1, 1⟩)] =
      (none, [("d", ⟨some "v", 0, some 5, 1, 1⟩)]) :=
  ⟨(((C3_getDel_once 10 "k" [("k", ⟨some "v", 2, some 20, 1, 1⟩)]).1
      ⟨some "v", 2, some 20, 1, 1⟩ (by decide) (by decide))).1,
   ((((C3_getDel_once 10 "k" [("k", ⟨some "v", 2, some 20, 1, 1⟩)]).1
      ⟨some "v", 2, some 20, 1, 1⟩ (by decide) (by decide))).2 10).1,
   (C3_getDel_once 10 "d" [("d", ⟨some "v", 0, some 5, 1, 1⟩)]).2 (by decide)⟩

/-- C9: on a live entry, increment and decrement change only the counter
and updated_at of the row for `k` (payload, expires_at and created_at are
kept), and every other key's row — including physically present expired
rows — is unchanged. -/
theorem C9_counter_frame (now : Int) (k : String) (s : Store) :
    ∀ r : Row, lookup s k = some r → isLive now r = true →
      ((KV.increment now k s).2 =
          replaceRow s k ⟨r.json_data, r.counter + 1, r.expires_at, r.created_at, now⟩ ∧
        lookup (KV.increment now k s).2 k =
          some ⟨r.json_data, r.counter + 1, r.expires_at, r.created_at, now⟩ ∧
        (∀ k' : String, k' ≠ k →
          lookup (KV.increment now k s).2 k' = lookup s k')) ∧
      ((KV.decrement now k s).2 =
          replaceRow s k ⟨r.json_data, r.counter + (-1), r.expires_at, r.created_at, now⟩ ∧
        lookup (KV.decrement now k s).2 k =
          some ⟨r.json_data, r.counter + (-1), r.expires_at, r.created_at, now⟩ ∧
        (∀ k' : String, k' ≠ k →
          lookup (KV.decrement now k s).2 k' = lookup s k')) := by
  intro r hr hl
  have hst1 : (KV.increment now k s).2 =
      replaceRow s k ⟨r.json_data, r.counter + 1, r.expires_at, r.created_at, now⟩ := by
    simp [KV.increment, addToCounter, hr, hl]
  have hst2 : (KV.decrement now k s).2 =
      replaceRow s k ⟨r.json_data, r.counter + (-1), r.expires_at, r.created_at, now⟩ := by
    simp [KV.decrement, addToCounter, hr, hl]
  refine ⟨⟨hst1, ?_, ?_⟩, hst2, ?_, ?_⟩
  · rw [hst1]
    exact lookup_replaceRow_some hr
  · intro k' hk'
    rw [hst1]
    exact lookup_replaceRow_ne hk'
  · rw [hst2]
    exact lookup_replaceRow_some hr
  · intro k' hk'
    rw [hst2]
    exact lookup_replaceRow_ne hk'

/-- Witness for C9: incrementing one live key rewrites only that row and
leaves the expired row of another key physically untouched. -/
theorem C9_witness :
    (KV.increment 10 "a" [("a", ⟨some "v", 3, none, 1, 2⟩),
        ("d", ⟨none, 0, some 5, 1, 1⟩)]).2 =
      replaceRow [("a", ⟨some "v", 3, none, 1, 2⟩), ("d", ⟨none, 0, some 5, 1, 1⟩)]
        "a" ⟨some "v", 4, none, 1, 10⟩ ∧
    lookup (KV.increment 10 "a" [("a", ⟨some "v", 3, none, 1, 2⟩),
        ("d", ⟨none, 0, some 5, 1, 1⟩)]).2 "d" =
      lookup [("a", ⟨some "v", 3, none, 1, 2⟩), ("d", ⟨none, 0, some 5, 1, 1⟩)] "d" :=
  ⟨((C9_counter_frame 10 "a" [("a", ⟨some "v", 3, none, 1, 2⟩),
      ("d", ⟨none, 0, some 5, 1, 1⟩)] ⟨some "v", 3, none, 1, 2⟩
      (by decide) (by decide)).1).1,
   ((C9_counter_frame 10 "a" [("a", ⟨some "v", 3, none, 1, 2⟩),
      ("d", ⟨none, 0, some 5, 1, 1⟩)] ⟨some "v", 3, none, 1, 2⟩
      (by decide) (by decide)).1).2.2 "d" (by decide)⟩

/-- C6: on a key with no live entry (absent, or present only expired), a
plain `set(k, v)` succeeds, and an immediate `get(k)` returns an entry
whose data is v, counter 0, no expiration, and createdAt = updatedAt. -/
theorem C6_set_get_roundtrip (now : Int) (k : String) (jd : Option String)
    (s : Store) (hWF : WF s) (hdead : select now k s = none) :
    ∃ s' : Store, KV.set now k jd ⟨false, none, none⟩ s = Except.ok (true, s') ∧
      KV.get now k s' = some ⟨jd, 0, none, now * 1000, now * 1000⟩ := by
  have hL : lookup (cleanup now s) k = none := by
    rw [lookup_cleanup hWF]
    unfold select at hdead
    cases hr : lookup s k with
    | none => rfl
    | some r =>
      rw [hr] at hdead
      have hdead2 : (if isLive now r = true then some r else none) = none := hdead
      show ((some r).bind fun r => if isLive now r = true then some r else none) = none
      by_cases hl : isLive now r = true
      · rw [if_pos hl] at hdead2
        exact absurd hdead2 (by simp)
      · rw [Bool.not_eq_true] at hl
        simp [hl]
  have hii : insertIgnore now k jd none s =
      Except.ok (cleanup now s ++ [(k, ⟨jd, 0, none, now, now⟩)]) := by
    unfold insertIgnore
    rw [if_neg (by simp [hL])]
  refine ⟨cleanup now s ++ [(k, ⟨jd, 0, none, now, now⟩)], ?_, ?_⟩
  · have hform : KV.set now k jd ⟨false, none, none⟩ s =
        KV.setCatch s (insertIgnore now k jd none s) := rfl
    rw [hform, hii]
    rfl
  · have hlook : lookup (cleanup now s ++ [(k, ⟨jd, 0, none, now, now⟩)]) k =
        some ⟨jd, 0, none, now, now⟩ := by
      rw [lookup_append_of_eq_none _ hL, lookup_singleton_self]
    simp [KV.get, select, hlook, isLive, format, formatRow]

/-- Witness for C6: setting over a key whose only row is expired succeeds
and the round trip returns the fresh entry with equal timestamps. -/
theorem C6_witness :
    KV.set 10 "k" (some "v") ⟨false, none, none⟩ [("k", ⟨some "o", 1, some 3, 1, 1⟩)] =
      Except.ok (true, [("k", ⟨some "v", 0, none, 10, 10⟩)]) ∧
    KV.get 10 "k" [("k", ⟨some "v", 0, none, 10, 10⟩)] =
      some ⟨some "v", 0, none, 10000, 10000⟩ := by
  obtain ⟨s', h1, h2⟩ := C6_set_get_roundtrip 10 "k" (some "v")
    [("k", ⟨some "o", 1, some 3, 1, 1⟩)] (by unfold WF keys; decide) rfl
  have h0 : KV.set 10 "k" (some "v") ⟨false, none, none⟩
      [("k", ⟨some "o", 1, some 3, 1, 1⟩)] =
      Except.ok (true, [("k", ⟨some "v", 0, none, 10, 10⟩)]) := rfl
  have hs : s' = [("k", ⟨some "v", 0, none, 10, 10⟩)] := by
    have h3 := h1.symm.trans h0
    injection h3 with h4
    exact congrArg Prod.snd h4
  subst hs
  exact ⟨h1, h2⟩

theorem sum_of_pm_ones (l : List Int) (h : ∀ d ∈ l, d = 1 ∨ d = -1) :
    l.sum = (l.count 1 : Int) - (l.count (-1) : Int) := by
  induction l with
  | nil => simp
  | cons a t ih =>
    have ht : ∀ d ∈ t, d = 1 ∨ d = -1 := fun d hd => h d (List.mem_cons_of_mem a hd)
    have hsum := ih ht
    rcases h a (List.mem_cons_self a t) with h1 | h1 <;> subst h1 <;>
      simp [List.sum_cons, List.count_cons, hsum] <;> ring

theorem iterCounter_lookup (k : String) (l : List (Int × Int)) :
    ∀ (s : Store) (r : Row), lookup s k = some r → r.expires_at = none →
      ∃ r' : Row, lookup (iterCounter k l s) k = some r' ∧
        r'.counter = r.counter + (l.map Prod.snd).sum ∧
        r'.expires_at = none ∧ r'.json_data = r.json_data ∧
        r'.created_at = r.created_at := by
  induction l with
  | nil =>
    intro s r hr he
    exact ⟨r, hr, by simp, he, rfl, rfl⟩
  | cons p t ih =>
    intro s r hr he
    have hl : isLive p.1 r = true := by
      unfold isLive
      rw [he]
    have hstep : (addToCounter p.1 k p.2 s).2 =
        replaceRow s k { r with counter := r.counter + p.2, updated_at := p.1 } := by
      simp [addToCounter, hr, hl]
    have hr' : lookup (addToCounter p.1 k p.2 s).2 k =
        some { r with counter := r.counter + p.2, updated_at := p.1 } := by
      rw [hstep]
      exact lookup_replaceRow_some hr
    have hiter : iterCounter k (p :: t) s = iterCounter k t (addToCounter p.1 k p.2 s).2 := rfl
    rw [hiter]
    obtain ⟨r', h1, h2, h3, h4, h5⟩ := ih _ _ hr' he
    refine ⟨r', h1, ?_, h3, h4, h5⟩
    rw [h2]
    simp only [List.map_cons, List.sum_cons]
    ring

/-- C4: increment and decrement add +1 / -1 to the counter of the entry
for `k` iff it is live, returning the row with the updated counter; on an
absent or expired entry they return null and leave the table unchanged
(no entry is created); and any interleaving of n increments and m
decrements on an always-live entry starting at counter 0 ends at n - m. -/
theorem C4_counter_arith (now : Int) (k : String) (s : Store) :
    (∀ r : Row, lookup s k = some r → isLive now r = true →
      (KV.increment now k s).1 = some (formatRow { r with counter := r.counter + 1 }) ∧
      lookup (KV.increment now k s).2 k =
        some { r with counter := r.counter + 1, updated_at := now } ∧
      (KV.decrement now k s).1 = some (formatRow { r with counter := r.counter + (-1) }) ∧
      lookup (KV.decrement now k s).2 k =
        some { r with counter := r.counter + (-1), updated_at := now }) ∧
    (lookup s k = none →
      KV.increment now k s = (none, s) ∧ KV.decrement now k s = (none, s)) ∧
    (∀ r : Row, lookup s k = some r → isExpired now r = true →
      KV.increment now k s = (none, s) ∧ KV.decrement now k s = (none, s)) ∧
    (∀ (l : List (Int × Int)) (r : Row), lookup s k = some r → r.expires_at = none →
      r.counter = 0 → (∀ d ∈ l.map Prod.snd, d = 1 ∨ d = -1) →
      ∃ r' : Row, lookup (iterCounter k l s) k = some r' ∧
        r'.counter = ((l.map Prod.snd).count 1 : Int) -
          ((l.map Prod.snd).count (-1) : Int)) := by
  refine ⟨fun r hr hl => ?_, fun hr => ?_, fun r hr hexp => ?_, fun l r hr he hc hpm => ?_⟩
  · refine ⟨?_, ?_, ?_, ?_⟩
    · simp [KV.increment, addToCounter, hr, hl, format]
    · have hstep : (KV.increment now k s).2 =
          replaceRow s k { r with counter := r.counter + 1, updated_at := now } := by
        simp [KV.increment, addToCounter, hr, hl]
      rw [hstep]
      exact lookup_replaceRow_some hr
    · simp [KV.decrement, addToCounter, hr, hl, format]
    · have hstep : (KV.decrement now k s).2 =
          replaceRow s k { r with counter := r.counter + (-1), updated_at := now } := by
        simp [KV.decrement, addToCounter, hr, hl]
      rw [hstep]
      exact lookup_replaceRow_some hr
  · exact ⟨by simp [KV.increment, addToCounter, hr, format],
      by simp [KV.decrement, addToCounter, hr, format]⟩
  · have hl : isLive now r = false := by
      have := isExpired_eq_not_isLive now r
      rw [hexp] at this
      revert this
      cases isLive now r <;> simp
    exact ⟨by simp [KV.increment, addToCounter, hr, hl, format],
      by simp [KV.decrement, addToCounter, hr, hl, format]⟩
  · obtain ⟨r', h1, h2, _, _, _⟩ := iterCounter_lookup k l s r hr he
    refine ⟨r', h1, ?_⟩
    rw [h2, hc, sum_of_pm_ones _ hpm]
    ring

/-- Witness for C4: on a live zero-counter entry, increment returns
counter 1; on a missing key nothing is created; the interleaving
+1, +1, -1 ends at counter 1 = 2 - 1. -/
theorem C4_witness :
    (KV.increment 10 "k" [("k", ⟨some "v", 0, none, 1, 1⟩)]).1 =
      some (formatRow ⟨some "v", 1, none, 1, 1⟩) ∧
    KV.increment 10 "x" [] = (none, []) ∧
    ∃ r' : Row,
      lookup (iterCounter "k" [(2, 1), (3, 1), (4, -1)]
        [("k", ⟨some "v", 0, none, 1, 1⟩)]) "k" = some r' ∧
      r'.counter = (([1, 1, -1] : List Int).count 1 : Int) -
        (([1, 1, -1] : List Int).count (-1) : Int) := by
  refine ⟨?_, ?_, ?_⟩
  · exact ((C4_counter_arith 10 "k" [("k", ⟨some "v", 0, none, 1, 1⟩)]).1
      ⟨some "v", 0, none, 1, 1⟩ (by decide) (by decide)).1
  · exact ((C4_counter_arith 10 "x" []).2.1 (by decide)).1
  · exact (C4_counter_arith 10 "k" [("k", ⟨some "v", 0, none, 1, 1⟩)]).2.2.2
      [(2, 1), (3, 1), (4, -1)] ⟨some "v", 0, none, 1, 1⟩ (by decide) rfl rfl
      (by decide)

theorem mem_cleanup {now : Int} {s : Store} {p : String × Row} (h : p ∈ cleanup now s) :
    p ∈ s ∧ isLive now p.2 = true :=
  List.mem_filter.mp h

theorem mem_eraseKey {s : Store} {k : String} {p : String × Row} (h : p ∈ eraseKey s k) :
    p ∈ s ∧ p.1 ≠ k := by
  have h2 := List.mem_filter.mp h
  exact ⟨h2.1, by simpa using h2.2⟩

theorem set_ok_true_mem {now : Int} {k : String} {jd : Option String} {opts : SetOpts}
    {s s' : Store} (h : KV.set now k jd opts s = Except.ok (true, s'))
    {p : String × Row} (hp : p ∈ s') :
    p = (k, ⟨jd, 0, computeExpiresAt now opts, now, now⟩) ∨
      (p ∈ s ∧ isLive now p.2 = true) := by
  by_cases hrep : opts.replace = true
  · simp only [KV.set, hrep, if_true] at h
    simp only [Except.ok.injEq, Prod.mk.injEq, true_and] at h
    subst h
    unfold insertReplace at hp
    rcases List.mem_append.mp hp with h1 | h1
    · exact Or.inr (mem_cleanup (mem_eraseKey h1).1)
    · exact Or.inl (List.mem_singleton.mp h1)
  · simp only [KV.set] at h
    rw [if_neg (by simp [hrep])] at h
    unfold insertIgnore at h
    by_cases hc : (lookup (cleanup now s) k).isSome = true
    · simp only [hc, if_true] at h
      simp [KV.setCatch, pkConflictCode] at h
    · simp only [hc] at h
      rw [if_neg (by simp [hc])] at h
      simp only [KV.setCatch, Except.ok.injEq, Prod.mk.injEq, true_and] at h
      subst h
      rcases List.mem_append.mp hp with h1 | h1
      · exact Or.inr (mem_cleanup h1)
      · exact Or.inl (List.mem_singleton.mp h1)

/-- C7 counterexample: at time 10, `set("k", v, ⦃ttl: 0⦄)` on an empty
table succeeds and stores a row with expires_at = 10 ≤ 10, so an expired
row is physically stored immediately after a successful set — refuting
the claim that after any successful set no expired row remains. -/
theorem C7_counterexample :
    KV.set 10 "k" (some "v") ⟨false, some 0, none⟩ [] =
      Except.ok (true, [("k", ⟨some "v", 0, some 10, 10, 10⟩)]) ∧
    ("k", (⟨some "v", 0, some 10, 10, 10⟩ : Row)) ∈
      [("k", (⟨some "v", 0, some 10, 10, 10⟩ : Row))] ∧
    isExpired 10 ⟨some "v", 0, some 10, 10, 10⟩ = true :=
  ⟨rfl, List.mem_singleton.mpr rfl, by decide⟩

/-- C7 (amended): cleanup runs before every insert and before every
row-matching delete, so after a successful set every expired row other
than possibly the row just inserted is gone (the new row itself is live
unless the requested expiration is already due, in which case it stays);
after any del matching at least one row, and after any getDel that
returns an entry, no expired row remains stored at all. -/
theorem C7_opportunistic_cleanup (now : Int) (k : String) (jd : Option String)
    (opts : SetOpts) (ks : List String) (s s' : Store) :
    (KV.set now k jd opts s = Except.ok (true, s') →
      (∀ p ∈ s', p.1 ≠ k → isExpired now p.2 = false) ∧
      (isLive now ⟨jd, 0, computeExpiresAt now opts, now, now⟩ = true →
        ∀ p ∈ s', isExpired now p.2 = false)) ∧
    ((∃ q ∈ s, q.1 ∈ ks) → ∀ p ∈ KV.del now ks s, isExpired now p.2 = false) ∧
    (∀ e : Entry, (KV.getDel now k s).1 = some e →
      ∀ p ∈ (KV.getDel now k s).2, isExpired now p.2 = false) := by
  have hnotexp : ∀ p : String × Row, isLive now p.2 = true →
      isExpired now p.2 = false := by
    intro p hl
    rw [isExpired_eq_not_isLive, hl]
    rfl
  refine ⟨fun h => ⟨?_, ?_⟩, ?_, ?_⟩
  · intro p hp hpk
    rcases set_ok_true_mem h hp with h1 | h1
    · exact absurd (congrArg Prod.fst h1) hpk
    · exact hnotexp p h1.2
  · intro hlive p hp
    rcases set_ok_true_mem h hp with h1 | h1
    · rw [h1]
      exact hnotexp _ hlive
    · exact hnotexp p h1.2
  · rintro ⟨q, hqs, hqk⟩ p hp
    cases ks with
    | nil => exact absurd hqk (List.not_mem_nil q.1)
    | cons k1 rest =>
      cases rest with
      | nil =>
        obtain ⟨q1, q2⟩ := q
        have hk1 : q1 = k1 := by simpa using hqk
        subst hk1
        have hsome : (lookup s q1).isSome = true := lookup_isSome_of_mem hqs
        have hdel : KV.del now [q1] s = eraseKey (cleanup now s) q1 := by
          show deleteSingle now q1 s = eraseKey (cleanup now s) q1
          unfold deleteSingle
          rw [if_pos hsome]
        rw [hdel] at hp
        exact hnotexp p (mem_cleanup (mem_eraseKey hp).1).2
      | cons k2 rest2 =>
        have hany : (s.any fun p => decide (p.1 ∈ k1 :: k2 :: rest2)) = true :=
          List.any_eq_true.mpr ⟨q, hqs, by simpa using hqk⟩
        have hdel : KV.del now (k1 :: k2 :: rest2) s =
            (cleanup now s).filter (fun p => decide (p.1 ∉ k1 :: k2 :: rest2)) := by
          show deleteMany now (k1 :: k2 :: rest2) s = _
          unfold deleteMany
          rw [if_pos hany]
        rw [hdel] at hp
        exact hnotexp p (mem_cleanup (List.mem_filter.mp hp).1).2
  · intro e he p hp
    cases hsel : select now k s with
    | none =>
      have h1 : (KV.getDel now k s).1 = none := by
        show format (deleteSelect now k s).1 = none
        unfold deleteSelect
        rw [hsel]
        rfl
      rw [h1] at he
      exact absurd he (by simp)
    | some r =>
      have h2 : (KV.getDel now k s).2 = eraseKey (cleanup now s) k := by
        show (deleteSelect now k s).2 = _
        unfold deleteSelect
        rw [hsel]
      rw [h2] at hp
      exact hnotexp p (mem_cleanup (mem_eraseKey hp).1).2

/-- Witness for C7 (amended): a plain set over a table holding an expired
row leaves only live rows; a del matching one key also sweeps the expired
row of another key, leaving only live rows. -/
theorem C7_witness :
    isExpired 10 (⟨some "v", 0, none, 10, 10⟩ : Row) = false ∧
    isExpired 10 (⟨some "w", 0, some 20, 1, 1⟩ : Row) = false :=
  ⟨((C7_opportunistic_cleanup 10 "k" (some "v") ⟨false, none, none⟩ []
      [("dead", ⟨none, 0, some 3, 1, 1⟩)] [("k", ⟨some "v", 0, none, 10, 10⟩)]).1
      rfl).2 (by decide) ("k", ⟨some "v", 0, none, 10, 10⟩) (by decide),
   (C7_opportunistic_cleanup 10 "x" none ⟨false, none, none⟩ ["b"]
      [("a", ⟨some "w", 0, some 20, 1, 1⟩), ("b", ⟨some "u", 0, none, 1, 1⟩),
        ("dead", ⟨none, 0, some 3, 1, 1⟩)] []).2.1
      ⟨("b", ⟨some "u", 0, none, 1, 1⟩), by decide, by decide⟩
      ("a", ⟨some "w", 0, some 20, 1, 1⟩) (by decide)⟩

theorem set_total (now : Int) (k : String) (jd : Option String) (opts : SetOpts)
    (s : Store) :
    (∃ s' : Store, KV.set now k jd opts s = Except.ok (true, s')) ∨
      KV.set now k jd opts s = Except.ok (false, s) := by
  by_cases hrep : opts.replace = true
  · exact Or.inl ⟨insertReplace now k jd (computeExpiresAt now opts) s,
      by simp [KV.set, hrep]⟩
  · by_cases hc : (lookup (cleanup now s) k).isSome = true
    · right
      unfold KV.set
      rw [if_neg (by simp [hrep])]
      unfold insertIgnore
      rw [if_pos hc]
      simp [KV.setCatch, pkConflictCode]
    · left
      refine ⟨cleanup now s ++ [(k, ⟨jd, 0, computeExpiresAt now opts, now, now⟩)], ?_⟩
      unfold KV.set
      rw [if_neg (by simp [hrep])]
      unfold insertIgnore
      rw [if_neg (by simp [hc])]
      rfl

theorem addToCounter_mem {now : Int} {k : String} {d : Int} {s : Store}
    {p : String × Row} (hp : p ∈ (addToCounter now k d s).2) :
    p ∈ s ∨ ∃ q ∈ s, p.2.created_at = q.2.created_at ∧ p.2.updated_at = now := by
  cases hr : lookup s k with
  | none =>
    rw [show (addToCounter now k d s).2 = s from by simp [addToCounter, hr]] at hp
    exact Or.inl hp
  | some r =>
    by_cases hl : isLive now r = true
    · rw [show (addToCounter now k d s).2 =
          replaceRow s k { r with counter := r.counter + d, updated_at := now } from by
        simp [addToCounter, hr, hl]] at hp
      unfold replaceRow at hp
      obtain ⟨q, hq, hpq⟩ := List.mem_map.mp hp
      by_cases hqk : q.1 = k
      · rw [if_pos hqk] at hpq
        right
        refine ⟨(k, r), lookup_mem hr, ?_, ?_⟩
        · rw [← hpq]
        · rw [← hpq]
      · rw [if_neg hqk] at hpq
        exact Or.inl (hpq ▸ hq)
    · rw [Bool.not_eq_true] at hl
      rw [show (addToCounter now k d s).2 = s from by simp [addToCounter, hr, hl]] at hp
      exact Or.inl hp

theorem addToCounter_preserves_created (now : Int) (k k' : String) (d : Int)
    (s : Store) :
    (lookup (addToCounter now k d s).2 k').map Row.created_at =
      (lookup s k').map Row.created_at := by
  cases hr : lookup s k with
  | none => rw [show (addToCounter now k d s).2 = s from by simp [addToCounter, hr]]
  | some r =>
    by_cases hl : isLive now r = true
    · rw [show (addToCounter now k d s).2 =
          replaceRow s k { r with counter := r.counter + d, updated_at := now } from by
        simp [addToCounter, hr, hl]]
      by_cases hk : k' = k
      · subst hk
        rw [lookup_replaceRow_some hr, hr]
        rfl
      · rw [lookup_replaceRow_ne hk]
    · rw [Bool.not_eq_true] at hl
      rw [show (addToCounter now k d s).2 = s from by simp [addToCounter, hr, hl]]

theorem applyOp_mem {t' : Int} {op : Op} {s : Store} {p : String × Row}
    (hp : p ∈ applyOp t' op s) :
    p ∈ s ∨ (p.2.created_at = t' ∧ p.2.updated_at = t') ∨
      ∃ q ∈ s, p.2.created_at = q.2.created_at ∧ p.2.updated_at = t' := by
  cases op with
  | getOp k => exact Or.inl hp
  | getDelOp k =>
    have hpd : p ∈ (deleteSelect t' k s).2 := hp
    cases hsel : select t' k s with
    | none =>
      rw [show (deleteSelect t' k s).2 = s from by unfold deleteSelect; rw [hsel]] at hpd
      exact Or.inl hpd
    | some r =>
      rw [show (deleteSelect t' k s).2 = eraseKey (cleanup t' s) k from by
        unfold deleteSelect; rw [hsel]] at hpd
      exact Or.inl (mem_cleanup (mem_eraseKey hpd).1).1
  | setOp k jd opts =>
    rcases set_total t' k jd opts s with ⟨s', hset⟩ | hset
    · have happ : applyOp t' (Op.setOp k jd opts) s = s' := by
        show (match KV.set t' k jd opts s with
          | Except.ok (_, s2) => s2
          | Except.error _ => s) = s'
        rw [hset]
      rw [happ] at hp
      rcases set_ok_true_mem hset hp with h1 | h1
      · right
        left
        rw [h1]
        exact ⟨rfl, rfl⟩
      · exact Or.inl h1.1
    · have happ : applyOp t' (Op.setOp k jd opts) s = s := by
        show (match KV.set t' k jd opts s with
          | Except.ok (_, s2) => s2
          | Except.error _ => s) = s
        rw [hset]
      rw [happ] at hp
      exact Or.inl hp
  | delOp ks =>
    cases ks with
    | nil => exact Or.inl hp
    | cons k1 rest =>
      cases rest with
      | nil =>
        have hps : p ∈ deleteSingle t' k1 s := hp
        unfold deleteSingle at hps
        by_cases hc : (lookup s k1).isSome = true
        · rw [if_pos hc] at hps
          exact Or.inl (mem_cleanup (mem_eraseKey hps).1).1
        · rw [if_neg hc] at hps
          exact Or.inl hps
      | cons k2 rest2 =>
        have hps : p ∈ deleteMany t' (k1 :: k2 :: rest2) s := hp
        unfold deleteMany at hps
        by_cases hc : (s.any fun q => decide (q.1 ∈ k1 :: k2 :: rest2)) = true
        · rw [if_pos hc] at hps
          exact Or.inl (mem_cleanup (List.mem_filter.mp hps).1).1
        · rw [if_neg hc] at hps
          exact Or.inl hps
  | incOp k =>
    have hps : p ∈ (addToCounter t' k 1 s).2 := hp
    rcases addToCounter_mem hps with h1 | h1
    · exact Or.inl h1
    · exact Or.inr (Or.inr h1)
  | decOp k =>
    have hps : p ∈ (addToCounter t' k (-1) s).2 := hp
    rcases addToCounter_mem hps with h1 | h1
    · exact Or.inl h1
    · exact Or.inr (Or.inr h1)

/-- C8 counterexample: the key "k" holds a row with created_at = 0;
`set("k", v2, ⦃replace: true⦄)` at time 5 succeeds and afterwards the
stored row for "k" has created_at = 5 ≠ 0 — REPLACE INTO deletes and
recreates the row, so createdAt is not preserved by set with replace,
refuting the claim that no later operation (including set with replace)
changes createdAt. -/
theorem C8_counterexample :
    lookup [("k", ⟨some "a", 0, none, 0, 0⟩)] "k" = some ⟨some "a", 0, none, 0, 0⟩ ∧
    KV.set 5 "k" (some "b") ⟨true, none, none⟩ [("k", ⟨some "a", 0, none, 0, 0⟩)] =
      Except.ok (true, [("k", ⟨some "b", 0, none, 5, 5⟩)]) ∧
    lookup [("k", ⟨some "b", 0, none, 5, 5⟩)] "k" = some ⟨some "b", 0, none, 5, 5⟩ ∧
    (5 : Int) ≠ (0 : Int) :=
  ⟨rfl, rfl, rfl, by decide⟩

/-- C8 (amended): reads leave the table unchanged; every operation, run at
a time t' no earlier than the clock bound t of the table, preserves the
invariant createdAt ≤ updatedAt ≤ t'; increment and decrement never change
any row's createdAt; a counter mutation on a live row stamps updatedAt to
the current time; but a successful set stores a row whose createdAt (and
updatedAt) is the current time — so set with replace:true recreates the
row with a fresh createdAt instead of preserving the old one. -/
theorem C8_timestamp_invariants (t t' now : Int) (op : Op) (k : String)
    (jd : Option String) (opts : SetOpts) (s : Store) :
    (applyOp t' (Op.getOp k) s = s) ∧
    (TimeInv t s → t ≤ t' → TimeInv t' (applyOp t' op s)) ∧
    (∀ k' : String,
      (lookup (KV.increment now k s).2 k').map Row.created_at =
        (lookup s k').map Row.created_at ∧
      (lookup (KV.decrement now k s).2 k').map Row.created_at =
        (lookup s k').map Row.created_at) ∧
    (∀ s' : Store, KV.set now k jd opts s = Except.ok (true, s') →
      lookup s' k = some ⟨jd, 0, computeExpiresAt now opts, now, now⟩) ∧
    (∀ r : Row, lookup s k = some r → isLive now r = true →
      lookup (KV.increment now k s).2 k =
        some ⟨r.json_data, r.counter + 1, r.expires_at, r.created_at, now⟩) := by
  refine ⟨rfl, fun hInv hle p hp => ?_, fun k' => ?_, fun s' h => set_ok_lookup h,
    fun r hr hl => ?_⟩
  · rcases applyOp_mem hp with h1 | ⟨hc, hu⟩ | ⟨q, hq, hc, hu⟩
    · obtain ⟨h2, h3⟩ := hInv p h1
      exact ⟨h2, le_trans h3 hle⟩
    · rw [hc, hu]
      exact ⟨le_refl t', le_refl t'⟩
    · obtain ⟨h2, h3⟩ := hInv q hq
      rw [hc, hu]
      exact ⟨le_trans h2 (le_trans h3 hle), le_refl t'⟩
  · exact ⟨addToCounter_preserves_created now k k' 1 s,
      addToCounter_preserves_created now k k' (-1) s⟩
  · have hstep : (KV.increment now k s).2 =
        replaceRow s k { r with counter := r.counter + 1, updated_at := now } := by
      simp [KV.increment, addToCounter, hr, hl]
    rw [hstep]
    exact lookup_replaceRow_some hr

/-- Witness for C8 (amended): incrementing a live row at time 7 keeps the
timestamp invariant, preserves createdAt = 1, and stamps updatedAt = 7. -/
theorem C8_witness :
    TimeInv 7 (applyOp 7 (Op.incOp "k") [("k", ⟨some "v", 3, none, 1, 2⟩)]) ∧
    (lookup (KV.increment 7 "k" [("k", ⟨some "v", 3, none, 1, 2⟩)]).2 "k").map
      Row.created_at = (lookup [("k", ⟨some "v", 3, none, 1, 2⟩)] "k").map
      Row.created_at ∧
    lookup (KV.increment 7 "k" [("k", ⟨some "v", 3, none, 1, 2⟩)]).2 "k" =
      some ⟨some "v", 4, none, 1, 7⟩ :=
  ⟨(C8_timestamp_invariants 5 7 7 (Op.incOp "k") "k" none ⟨false, none, none⟩
      [("k", ⟨some "v", 3, none, 1, 2⟩)]).2.1
      (by intro p hp; simp at hp; rw [hp]; exact ⟨by decide, by decide⟩) (by decide),
   ((C8_timestamp_invariants 5 7 7 (Op.incOp "k") "k" none ⟨false, none, none⟩
      [("k", ⟨some "v", 3, none, 1, 2⟩)]).2.2.1 "k").1,
   (C8_timestamp_invariants 5 7 7 (Op.incOp "k") "k" none ⟨false, none, none⟩
      [("k", ⟨some "v", 3, none, 1, 2⟩)]).2.2.2.2 ⟨some "v", 3, none, 1, 2⟩
      (by decide) (by decide)⟩

end KVSqlite
